import Mathlib

/-!
Shallow embedding of `src/PythonLibraries/LM75.py`.

The driver talks to the sensor through an smbus transport
(`read_byte_data`, `write_byte_data`, `read_word_data`, `write_word_data`).
We model the sensor's register file as a record `Regs` (one field per
register the driver touches) and every method of the `LM75` class as a
function from `Regs` to its Python return value, the register file after
the call, and the list of bus transactions the call issued, in order.
Python's arbitrary-precision integers are modelled by `Nat` (for register
values, always non-negative in the source) and `Int` (for caller-supplied
arguments that the source compares against small constants); Python floats
are modelled by `ℚ`, exact here because every value produced by the decode
is a half-integer of magnitude at most 127.5.
-/

namespace LM75

/-- One bus transaction issued through the smbus transport, recorded with
the register index and, for writes, the value written. -/
inductive BusOp where
  | readByte  (reg : Nat)
  | writeByte (reg : Nat) (val : Nat)
  | readWord  (reg : Nat)
  | writeWord (reg : Nat) (val : Nat)
  deriving DecidableEq

/-- Register indices, from the class attributes `__TEMP`, `_CONFIG`,
`_THYST`, `_TSET` of `LM75`. -/
def TEMP : Nat := 0x00

/-- Register index of the configuration byte (`_CONFIG = 0x01`). -/
def CONFIG : Nat := 0x01

/-- Register index of the hysteresis word (`_THYST = 0x02`). -/
def THYST : Nat := 0x02

/-- Register index of the set-point word (`_TSET = 0x03`). -/
def TSET : Nat := 0x03

/-- The sensor's register file as seen through the bus: the 16-bit word
returned for TEMP reads and the CONFIG byte, THYST word and TSET word. -/
structure Regs where
  temp : Nat
  config : Nat
  thys : Nat
  tset : Nat
  deriving DecidableEq

/-- `getConf`: `read_byte_data(address, _CONFIG)`. -/
def getConf (s : Regs) : Nat × List BusOp :=
  (s.config, [BusOp.readByte CONFIG])

/-- `setConf`: `write_byte_data(address, _CONFIG, conf)`. -/
def setConf (conf : Nat) (s : Regs) : Regs × List BusOp :=
  ({ s with config := conf }, [BusOp.writeByte CONFIG conf])

/-- `setThys`: `write_word_data(address, _THYST, thys)`. -/
def setThys (thys : Nat) (s : Regs) : Regs × List BusOp :=
  ({ s with thys := thys }, [BusOp.writeWord THYST thys])

/-- `setTset`: `write_word_data(address, _TSET, tos)`. -/
def setTset (tos : Nat) (s : Regs) : Regs × List BusOp :=
  ({ s with tset := tos }, [BusOp.writeWord TSET tos])

/-- `__init__` after binding the bus and address: `setConf(0x00)`,
`setThys(0x004B)`, `setTset(0x0050)`. -/
def init (s : Regs) : Regs × List BusOp :=
  let r1 := setConf 0x00 s
  let r2 := setThys 0x004B r1.1
  let r3 := setTset 0x0050 r2.1
  (r3.1, r1.2 ++ r2.2 ++ r3.2)

/-- Python `a & ~b` for non-negative `a`, `b`: clears from `a` the bits
set in `b`.  Since the bits of `a &&& b` are a subset of the bits of `a`,
this equals `a ^^^ (a &&& b)`. -/
def pyAndNot (a b : Nat) : Nat := a ^^^ (a &&& b)

/-- `setFaultQueue`: rejects values outside `[0,1,2,3]` (printing an error
and returning `False`, with no bus traffic); otherwise reads the
configuration, ORs in `value << 3` and writes the result back. -/
def setFaultQueue (value : Int) (s : Regs) : Bool × Regs × List BusOp :=
  if value ∈ ([0, 1, 2, 3] : List Int) then
    let r1 := getConf s
    let cfgVal := r1.1 ||| (value.toNat <<< 3)
    let r2 := setConf cfgVal s
    (true, r2.1, r1.2 ++ r2.2)
  else
    (false, s, [])

/-- `getTemp`: reads the TEMP word and decodes it with
`dec = (t & 0x8000) >> 15`, `temsign = t & 0x0080`, `t = t & 0x007F`,
`(-1)**temsign * (t + 0.5*dec)`. -/
def getTemp (s : Regs) : ℚ × Regs × List BusOp :=
  let temp := s.temp
  let dec := (temp &&& 0x8000) >>> 15
  let temsign := temp &&& 0x0080
  let mag := temp &&& 0x007F
  (((-1 : ℚ) ^ temsign) * ((mag : ℚ) + (1 / 2 : ℚ) * (dec : ℚ)),
    s, [BusOp.readWord TEMP])

/-- `getThys`: reads the THYST word and decodes it with the same
arithmetic as `getTemp` (the source repeats the four lines verbatim). -/
def getThys (s : Regs) : ℚ × Regs × List BusOp :=
  let thys := s.thys
  let dec := (thys &&& 0x8000) >>> 15
  let thyssign := thys &&& 0x0080
  let mag := thys &&& 0x007F
  (((-1 : ℚ) ^ thyssign) * ((mag : ℚ) + (1 / 2 : ℚ) * (dec : ℚ)),
    s, [BusOp.readWord THYST])

/-- `getTset`: reads the TSET word and decodes it with the same
arithmetic as `getTemp` (again repeated verbatim in the source). -/
def getTset (s : Regs) : ℚ × Regs × List BusOp :=
  let tos := s.tset
  let dec := (tos &&& 0x8000) >>> 15
  let tossign := tos &&& 0x0080
  let mag := tos &&& 0x007F
  (((-1 : ℚ) ^ tossign) * ((mag : ℚ) + (1 / 2 : ℚ) * (dec : ℚ)),
    s, [BusOp.readWord TSET])

/-- The decode arithmetic of `getTemp` (lines 57-60 of the source),
factored out so properties of the raw-word-to-Celsius map can be stated
once; `decode_getTemp` below proves it is exactly what the getters do. -/
def decode (w : Nat) : ℚ :=
  let dec := (w &&& 0x8000) >>> 15
  let sign := w &&& 0x0080
  let mag := w &&& 0x007F
  ((-1 : ℚ) ^ sign) * ((mag : ℚ) + (1 / 2 : ℚ) * (dec : ℚ))

/-- `setPolarity`: read-modify-write; `cfgVal | 0x04` when `polarity == 1`,
`cfgVal & ~0x04` otherwise. -/
def setPolarity (polarity : Int) (s : Regs) : Regs × List BusOp :=
  let r1 := getConf s
  let cfgVal := if polarity = 1 then r1.1 ||| 0x04 else pyAndNot r1.1 0x04
  let r2 := setConf cfgVal s
  (r2.1, r1.2 ++ r2.2)

/-- `comparator_mode`: read-modify-write with `cfgVal & 0xFD`. -/
def comparator_mode (s : Regs) : Bool × Regs × List BusOp :=
  let r1 := getConf s
  let cfgVal := r1.1 &&& 0xFD
  let r2 := setConf cfgVal s
  (true, r2.1, r1.2 ++ r2.2)

/-- `interrupt_mode`: read-modify-write with `cfgVal | 0x02`. -/
def interrupt_mode (s : Regs) : Bool × Regs × List BusOp :=
  let r1 := getConf s
  let cfgVal := r1.1 ||| 0x02
  let r2 := setConf cfgVal s
  (true, r2.1, r1.2 ++ r2.2)

/-- `wakeup`: read-modify-write with `cfgVal & 0xFE`. -/
def wakeup (s : Regs) : Bool × Regs × List BusOp :=
  let r1 := getConf s
  let cfgVal := r1.1 &&& 0xFE
  let r2 := setConf cfgVal s
  (true, r2.1, r1.2 ++ r2.2)

/-- `shutdown`: read-modify-write with `cfgVal | 0x01`. -/
def shutdown (s : Regs) : Bool × Regs × List BusOp :=
  let r1 := getConf s
  let cfgVal := r1.1 ||| 0x01
  let r2 := setConf cfgVal s
  (true, r2.1, r1.2 ++ r2.2)

/-- Modelled from the spec: the 9-bit sign-magnitude encoding that the
spec's round-trip property refers to — bit 7 carries the sign, bits 0-6
the integer magnitude, bit 15 the half-degree flag.  (The source contains
no encoder; temperatures are only ever decoded.) -/
def encodeSpec (x : ℚ) : Nat :=
  let s : Nat := if x < 0 then 0x80 else 0
  let m : Nat := (Int.toNat ⌊|x|⌋) &&& 0x7F
  let d : Nat := if |x| - (⌊|x|⌋ : ℚ) = 1 / 2 then 0x8000 else 0
  s ||| (m ||| d)

/-- The getters all compute `decode` of the word they read. -/
theorem decode_getters (s : Regs) :
    (getTemp s).1 = decode s.temp ∧ (getThys s).1 = decode s.thys ∧
      (getTset s).1 = decode s.tset :=
  ⟨rfl, rfl, rfl⟩

/-- Masking a 7-bit value with `0x7F` is the identity. -/
theorem land127 (q : Nat) (hq : q < 128) : q &&& 127 = q := by
  apply Nat.eq_of_testBit_eq
  intro i
  rw [Nat.testBit_land]
  have h127 : (127 : Nat) = 2 ^ 7 - 1 := by norm_num
  rw [h127, Nat.testBit_two_pow_sub_one]
  rcases lt_or_ge i 7 with h | h
  · simp [h]
  · have hf : q.testBit i = false :=
      Nat.testBit_lt_two_pow (lt_of_lt_of_le hq (Nat.pow_le_pow_right two_pos h))
    simp [hf]

/-- A 7-bit value has bit 7 clear. -/
theorem land128 (q : Nat) (hq : q < 128) : q &&& 128 = 0 := by
  have h : (128 : Nat) = 2 ^ 7 := by norm_num
  rw [h, Nat.and_two_pow, Nat.testBit_lt_two_pow hq]
  simp

/-- A 7-bit value has bit 15 clear. -/
theorem land32768 (q : Nat) (hq : q < 128) : q &&& 32768 = 0 := by
  have h : (32768 : Nat) = 2 ^ 15 := by norm_num
  rw [h, Nat.and_two_pow, Nat.testBit_lt_two_pow (lt_trans hq (by norm_num))]
  simp

/-- Setting bit 15 makes the bit-15 mask pick it out. -/
theorem lor_land32768 (q : Nat) : (q ||| 32768) &&& 32768 = 32768 := by
  have h : (32768 : Nat) = 2 ^ 15 := by norm_num
  rw [h, Nat.and_two_pow, Nat.testBit_lor, Nat.testBit_two_pow_self]
  simp

/-- Setting bit 15 of a 7-bit value leaves bit 7 clear. -/
theorem lor_land128 (q : Nat) (hq : q < 128) : (q ||| 32768) &&& 128 = 0 := by
  have h : (128 : Nat) = 2 ^ 7 := by norm_num
  have h' : (32768 : Nat) = 2 ^ 15 := by norm_num
  rw [h, Nat.and_two_pow, Nat.testBit_lor, h', Nat.testBit_two_pow,
    Nat.testBit_lt_two_pow hq]
  simp

/-- Setting bit 15 of a 7-bit value does not disturb bits 0-6. -/
theorem lor_land127 (q : Nat) (hq : q < 128) : (q ||| 32768) &&& 127 = q := by
  apply Nat.eq_of_testBit_eq
  intro i
  rw [Nat.testBit_land, Nat.testBit_lor]
  have h127 : (127 : Nat) = 2 ^ 7 - 1 := by norm_num
  have h' : (32768 : Nat) = 2 ^ 15 := by norm_num
  rw [h127, Nat.testBit_two_pow_sub_one, h', Nat.testBit_two_pow]
  rcases lt_or_ge i 7 with h | h
  · have hne : (15 : Nat) ≠ i := by omega
    simp [h, hne]
  · have hf : q.testBit i = false :=
      Nat.testBit_lt_two_pow (lt_of_lt_of_le hq (Nat.pow_le_pow_right two_pos h))
    simp [hf, Nat.lt_irrefl, h]

/-- Encoding a whole number of degrees below 128 sets only bits 0-6. -/
theorem encode_nat (q : Nat) (hq : q < 128) : encodeSpec (q : ℚ) = q := by
  unfold encodeSpec
  have h0 : ¬ ((q : ℚ) < 0) := not_lt.mpr (by positivity)
  have habs : |(q : ℚ)| = (q : ℚ) := abs_of_nonneg (by positivity)
  have hfloor : ⌊(q : ℚ)⌋ = (q : ℤ) := Int.floor_natCast q
  rw [if_neg h0, habs, hfloor]
  have htn : (Int.toNat (q : ℤ)) = q := Int.toNat_natCast q
  rw [htn, land127 q hq]
  have hd : ¬ ((q : ℚ) - ((q : ℤ) : ℚ) = 1 / 2) := by push_cast; norm_num
  rw [if_neg hd]
  simp

/-- The decode maps a 7-bit word to that many degrees. -/
theorem decode_nat (q : Nat) (hq : q < 128) : decode q = q := by
  unfold decode
  rw [land32768 q hq, land128 q hq, land127 q hq]
  norm_num

/-- Encoding a half-degree value sets bits 0-6 and the bit-15 flag. -/
theorem encode_half (q : Nat) (hq : q < 128) :
    encodeSpec ((q : ℚ) + 1 / 2) = q ||| 32768 := by
  unfold encodeSpec
  have h0 : ¬ ((q : ℚ) + 1 / 2 < 0) := not_lt.mpr (by positivity)
  have habs : |(q : ℚ) + 1 / 2| = (q : ℚ) + 1 / 2 := abs_of_nonneg (by positivity)
  have hfloor : ⌊(q : ℚ) + 1 / 2⌋ = (q : ℤ) := by
    apply Int.floor_eq_iff.mpr
    constructor
    · push_cast; linarith
    · push_cast; linarith
  rw [if_neg h0, habs, hfloor]
  have htn : (Int.toNat (q : ℤ)) = q := Int.toNat_natCast q
  rw [htn, land127 q hq]
  have hd : (q : ℚ) + 1 / 2 - ((q : ℤ) : ℚ) = 1 / 2 := by push_cast; ring
  rw [if_pos hd]
  simp

/-- The decode maps a 7-bit word with the bit-15 flag set to that many
degrees plus one half. -/
theorem decode_half (q : Nat) (hq : q < 128) :
    decode (q ||| 32768) = (q : ℚ) + 1 / 2 := by
  unfold decode
  rw [lor_land32768 q, lor_land128 q hq, lor_land127 q hq]
  have h15 : (32768 : Nat) >>> 15 = 1 := by decide
  rw [h15]
  norm_num

/-- The source's sign term `(-1)**(w & 0x0080)` is always `1`: the
exponent is `0` or `128`, both even. -/
theorem sign_term_one (w : Nat) : ((-1 : ℚ)) ^ (w &&& 0x0080) = 1 := by
  have h : (0x0080 : Nat) = 2 ^ 7 := by norm_num
  have he : Even (w &&& 0x0080) := by
    rw [h, Nat.and_two_pow]
    rcases w.testBit 7 with _ | _ <;> simp [Bool.toNat]
    decide
  exact he.neg_one_pow

/-- With the sign term gone, the decode is magnitude plus half the flag. -/
theorem decode_eq (w : Nat) :
    decode w =
      ((w &&& 0x007F : Nat) : ℚ) + (1 / 2 : ℚ) * (((w &&& 0x8000) >>> 15 : Nat) : ℚ) := by
  simp only [decode]
  rw [sign_term_one]
  ring

/-- The half-degree flag extracted by the decode is at most one. -/
theorem dec_le_one (w : Nat) : (w &&& 0x8000) >>> 15 ≤ 1 := by
  rw [Nat.shiftRight_eq_div_pow]
  have h : w &&& 0x8000 ≤ 0x8000 := Nat.and_le_right
  calc (w &&& 0x8000) / 2 ^ 15 ≤ 0x8000 / 2 ^ 15 := Nat.div_le_div_right h
    _ = 1 := by norm_num

/-- Bit `j` of the literal `4 = 2 ^ 2` is clear away from position 2. -/
theorem testBit_four (i : Nat) (hi : i ≠ 2) : Nat.testBit 4 i = false := by
  have h : (4 : Nat) = 2 ^ 2 := by norm_num
  rw [h, Nat.testBit_two_pow]
  simp [Ne.symm hi]

/-- Bit `j` of the literal `1 = 2 ^ 0` is clear away from position 0. -/
theorem testBit_one_ne (i : Nat) (hi : i ≠ 0) : Nat.testBit 1 i = false := by
  have h : (1 : Nat) = 2 ^ 0 := by norm_num
  rw [h, Nat.testBit_two_pow]
  simp [Ne.symm hi]

/-- The mask `0xFE` keeps exactly bits 1 through 7. -/
theorem testBit_254 : ∀ j < 8, 1 ≤ j → Nat.testBit 254 j = true := by decide

/-- C1: the claim says `getTemp` negates the magnitude when bit 7 of the
raw word is set.  The code instead computes `(-1)**(w & 0x0080)`, whose
exponent is `0` or `128`, both even, so the sign term is always `+1`: on
the raw word `0x0081` (bit 7 set, magnitude 1, half flag clear) the code
returns `+1.0`, not the `-1.0` the claim requires. -/
theorem getTemp_bit7_set_still_positive :
    (getTemp { temp := 0x0081, config := 0, thys := 0, tset := 0 }).1 = 1 ∧
      (1 : ℚ) ≠ -(1 + (1 / 2 : ℚ) * 0) := by
  constructor
  · have hrfl : (getTemp { temp := 0x0081, config := 0, thys := 0, tset := 0 }).1 =
        decode 0x0081 := rfl
    rw [hrfl, decode_eq]
    have h1 : (0x0081 &&& 0x8000 : Nat) = 0 := by decide
    have h3 : (0x0081 &&& 0x007F : Nat) = 1 := by decide
    rw [h1, h3]
    have h0 : (0 : Nat) >>> 15 = 0 := by decide
    rw [h0]
    norm_num
  · norm_num

/-- C2 counterexample: the round trip fails on the representable value
`-0.5`: the encoder sets the sign bit (bit 7), but the decode's sign term
is always `+1`, so `decode (encodeSpec (-0.5)) = +0.5 ≠ -0.5`. -/
theorem roundTrip_neg_half_counterexample :
    decode (encodeSpec (-(1 / 2))) = 1 / 2 ∧ ((1 / 2 : ℚ)) ≠ -(1 / 2) := by
  constructor
  · have he : encodeSpec (-(1 / 2)) = 0x8080 := by
      unfold encodeSpec
      have h0 : (-(1 / 2) : ℚ) < 0 := by norm_num
      have habs : |(-(1 / 2) : ℚ)| = 1 / 2 := by
        rw [abs_neg]; exact abs_of_nonneg (by norm_num)
      have hfloor : ⌊(1 / 2 : ℚ)⌋ = 0 := by
        apply Int.floor_eq_iff.mpr; norm_num
      rw [if_pos h0, habs, hfloor]
      norm_num
      decide
    rw [he]
    have h1 : (0x8080 &&& 0x8000 : Nat) = 0x8000 := by decide
    have h2 : (0x8080 &&& 0x0080 : Nat) = 128 := by decide
    have h3 : (0x8080 &&& 0x007F : Nat) = 0 := by decide
    unfold decode
    rw [h1, h2, h3]
    have h15 : (32768 : Nat) >>> 15 = 1 := by decide
    rw [h15]
    norm_num
  · norm_num

/-- C2 as amended: the round trip `decode (encodeSpec x) = x` holds on
the non-negative representable range, `x = n / 2` for `n < 256`, i.e.
`x` in `[0.0, 127.5]` at half-degree steps. -/
theorem roundTrip_nonneg_range (n : Nat) (hn : n < 256) :
    decode (encodeSpec ((n : ℚ) / 2)) = (n : ℚ) / 2 := by
  rcases Nat.even_or_odd n with ⟨q, hq⟩ | ⟨q, hq⟩
  · have hq128 : q < 128 := by omega
    have hx : ((n : ℚ)) / 2 = (q : ℚ) := by subst hq; push_cast; ring
    rw [hx, encode_nat q hq128, decode_nat q hq128]
  · have hq128 : q < 128 := by omega
    have hx : ((n : ℚ)) / 2 = (q : ℚ) + 1 / 2 := by subst hq; push_cast; ring
    rw [hx, encode_half q hq128, decode_half q hq128]

/-- Witness for the amended C2 at `n = 150`, i.e. `x = 75.0`. -/
theorem roundTrip_nonneg_range_witness :
    ((150 : Nat) < 256) ∧
      decode (encodeSpec (((150 : Nat) : ℚ) / 2)) = ((150 : Nat) : ℚ) / 2 :=
  ⟨by norm_num, roundTrip_nonneg_range 150 (by norm_num)⟩

/-- C3: the claim says `setFaultQueue` clears bits 3-4 before ORing in
`depth << 3`.  The code only ORs: starting from configuration `0x18`
(fault-queue bits `11`), `setFaultQueue 2` writes back `0x18`, whose
fault-queue field reads `3`, not the claimed `2`. -/
theorem setFaultQueue_no_clear_eval :
    (setFaultQueue 2 { temp := 0, config := 0x18, thys := 0, tset := 0 }).2.1.config = 0x18 ∧
      ((setFaultQueue 2 { temp := 0, config := 0x18, thys := 0, tset := 0 }).2.1.config
          >>> 3) &&& 3 = 3 ∧
      (3 : Nat) ≠ 2 := by
  refine ⟨by decide, by decide, by decide⟩

/-- C4: for every depth outside 0,1,2,3 (any integer), `setFaultQueue`
returns `False`, issues no bus transaction at all, and leaves the
register state — hence the configuration observed by a subsequent
`getConf` — unchanged. -/
theorem setFaultQueue_invalid_rejected (s : Regs) (v : Int)
    (hv : v ∉ ([0, 1, 2, 3] : List Int)) :
    setFaultQueue v s = (false, s, []) ∧
      (getConf (setFaultQueue v s).2.1).1 = (getConf s).1 := by
  have h : setFaultQueue v s = (false, s, []) := by
    simp only [setFaultQueue, if_neg hv]
  exact ⟨h, by rw [h]⟩

/-- Witness for C4 at depth 4 on a zeroed register file. -/
theorem setFaultQueue_invalid_rejected_witness :
    setFaultQueue 4 { temp := 0, config := 0, thys := 0, tset := 0 } =
        (false, { temp := 0, config := 0, thys := 0, tset := 0 }, []) ∧
      (getConf (setFaultQueue 4 { temp := 0, config := 0, thys := 0, tset := 0 }).2.1).1 =
        (getConf { temp := 0, config := 0, thys := 0, tset := 0 }).1 :=
  setFaultQueue_invalid_rejected { temp := 0, config := 0, thys := 0, tset := 0 } 4 (by decide)

/-- C5: construction issues exactly three bus writes, in order:
configuration `0x00` to register `0x01`, hysteresis `0x004B` to register
`0x02`, set-point `0x0050` to register `0x03` — and nothing else. -/
theorem init_exact_trace (s : Regs) :
    (init s).2 = [BusOp.writeByte CONFIG 0x00, BusOp.writeWord THYST 0x004B,
        BusOp.writeWord TSET 0x0050] ∧
      CONFIG = 0x01 ∧ THYST = 0x02 ∧ TSET = 0x03 ∧
      (init s).1 = { temp := s.temp, config := 0x00, thys := 0x004B, tset := 0x0050 } :=
  ⟨rfl, rfl, rfl, rfl, rfl⟩

/-- C6: `setPolarity 1` writes the configuration back with bit 2 set;
any other argument writes it back with bit 2 cleared; in both cases every
bit other than bit 2 keeps its prior value. -/
theorem setPolarity_bit2 (s : Regs) (p : Int) :
    ((setPolarity 1 s).1.config).testBit 2 = true ∧
      (p ≠ 1 → ((setPolarity p s).1.config).testBit 2 = false) ∧
      (∀ i, i ≠ 2 → ((setPolarity p s).1.config).testBit i = s.config.testBit i) := by
  refine ⟨?_, ?_, ?_⟩
  · simp only [setPolarity, getConf, setConf, if_true]
    rw [Nat.testBit_lor]
    have h : Nat.testBit 4 2 = true := by decide
    simp [h]
  · intro hp
    simp only [setPolarity, getConf, setConf, if_neg hp, pyAndNot]
    have h : Nat.testBit 4 2 = true := by decide
    simp [Nat.testBit_xor, Nat.testBit_land, h]
  · intro i hi
    by_cases hp : p = 1
    · simp only [setPolarity, getConf, setConf, if_pos hp]
      rw [Nat.testBit_lor, testBit_four i hi]
      simp
    · simp only [setPolarity, getConf, setConf, if_neg hp, pyAndNot]
      simp [Nat.testBit_xor, Nat.testBit_land, testBit_four i hi]

/-- Witness for C6: with prior configuration `0xFF`, `setPolarity 0`
clears bit 2. -/
theorem setPolarity_bit2_witness :
    ((setPolarity 0 { temp := 0, config := 0xFF, thys := 0, tset := 0 }).1.config).testBit 2 =
      false :=
  (setPolarity_bit2 { temp := 0, config := 0xFF, thys := 0, tset := 0 } 0).2.1 (by decide)

/-- C7: for every prior configuration byte, `shutdown` writes it back
with bit 0 set and `wakeup` writes it back with bit 0 cleared, leaving
every other bit unchanged. -/
theorem shutdown_wakeup_bit0 (s : Regs) (hs : s.config < 256) :
    ((shutdown s).2.1.config).testBit 0 = true ∧
      (∀ i, i ≠ 0 → ((shutdown s).2.1.config).testBit i = s.config.testBit i) ∧
      ((wakeup s).2.1.config).testBit 0 = false ∧
      (∀ i, i ≠ 0 → ((wakeup s).2.1.config).testBit i = s.config.testBit i) := by
  refine ⟨?_, ?_, ?_, ?_⟩
  · simp only [shutdown, getConf, setConf]
    rw [Nat.testBit_lor]
    simp [Nat.testBit_one_zero]
  · intro i hi
    simp only [shutdown, getConf, setConf]
    rw [Nat.testBit_lor, testBit_one_ne i hi]
    simp
  · simp only [wakeup, getConf, setConf]
    rw [Nat.testBit_land]
    have h : Nat.testBit 254 0 = false := by decide
    simp [h]
  · intro i hi
    simp only [wakeup, getConf, setConf]
    rw [Nat.testBit_land]
    rcases lt_or_ge i 8 with h8 | h8
    · rw [testBit_254 i h8 (by omega)]
      simp
    · have h256 : (256 : Nat) = 2 ^ 8 := by norm_num
      have hf : s.config.testBit i = false :=
        Nat.testBit_lt_two_pow
          (lt_of_lt_of_le hs (h256 ▸ Nat.pow_le_pow_right two_pos h8))
      rw [hf]
      simp

/-- Witness for C7 on the prior configuration byte `0xAA`. -/
theorem shutdown_wakeup_bit0_witness :
    ((shutdown { temp := 0, config := 0xAA, thys := 0, tset := 0 }).2.1.config).testBit 0 =
      true :=
  (shutdown_wakeup_bit0 { temp := 0, config := 0xAA, thys := 0, tset := 0 } (by norm_num)).1

/-- C8: `getTemp`, `getThys` and `getTset` apply the same decode to the
raw word they read, differing only in the register address of the read:
`0x00`, `0x02` and `0x03` respectively. -/
theorem getters_same_decode (w : Nat) (s : Regs) :
    (getTemp { s with temp := w }).1 = (getThys { s with thys := w }).1 ∧
      (getThys { s with thys := w }).1 = (getTset { s with tset := w }).1 ∧
      (getTemp s).2.2 = [BusOp.readWord 0x00] ∧
      (getThys s).2.2 = [BusOp.readWord 0x02] ∧
      (getTset s).2.2 = [BusOp.readWord 0x03] :=
  ⟨rfl, rfl, rfl, rfl, rfl⟩

/-- C9: the decode maps `0x0000` to `0.0`, and the raw words written by
construction as hysteresis and set-point defaults, `0x004B` and `0x0050`,
decode to `75.0` and `80.0` degrees. -/
theorem decode_defaults :
    decode 0x0000 = 0 ∧ decode 0x004B = 75 ∧ decode 0x0050 = 80 ∧
      ∀ s : Regs, (init s).2 = [BusOp.writeByte CONFIG 0x00,
        BusOp.writeWord THYST 0x004B, BusOp.writeWord TSET 0x0050] := by
  refine ⟨?_, ?_, ?_, fun s => rfl⟩
  · simpa using decode_nat 0 (by norm_num)
  · simpa using decode_nat 75 (by norm_num)
  · simpa using decode_nat 80 (by norm_num)

/-- C10: for every raw word, the sign term `(-1)**(w & 0x0080)` equals
`+1` (the exponent is 0 or 128, both even), so the value produced by each
of the three getters is non-negative, at most `127.5`, and a multiple of
`0.5`. -/
theorem decode_always_nonneg :
    (∀ w : Nat, ((-1 : ℚ)) ^ (w &&& 0x0080) = 1 ∧
      0 ≤ decode w ∧ decode w ≤ 255 / 2 ∧ ∃ n : Nat, decode w = (n : ℚ) / 2) ∧
      ∀ s : Regs, (getTemp s).1 = decode s.temp ∧ (getThys s).1 = decode s.thys ∧
        (getTset s).1 = decode s.tset := by
  constructor
  · intro w
    refine ⟨sign_term_one w, ?_⟩
    rw [decode_eq]
    have hmag : (w &&& 0x007F) ≤ 127 := Nat.and_le_right
    have hdec : (w &&& 0x8000) >>> 15 ≤ 1 := dec_le_one w
    have hmagQ : ((w &&& 0x007F : Nat) : ℚ) ≤ 127 := by exact_mod_cast hmag
    have hdecQ : (((w &&& 0x8000) >>> 15 : Nat) : ℚ) ≤ 1 := by exact_mod_cast hdec
    refine ⟨by positivity, by linarith,
      2 * (w &&& 0x007F) + (w &&& 0x8000) >>> 15, ?_⟩
    push_cast
    ring
  · intro s
    exact ⟨rfl, rfl, rfl⟩

end LM75
